import Mathlib

/-!
# rename.js : batch renamer of `tests/operator`

A shallow embedding of `src/rename.js`.

* JavaScript strings (file names, paths, the printed line) are lists of
  characters.  Both regular expressions of the program, `/_/g` and `/lox/g`,
  are literal patterns without flags other than `g`, so matching is plain
  comparison of consecutive characters; the characters of the two patterns
  are ASCII, so it makes no difference that JavaScript compares 16-bit code
  units.
* The file system is not simulated.  What the three `fs` calls answer is part
  of the input: the result of `fs.readdir`, and for each listed entry the
  result `fs.statSync` gives when it is called on it and the `err` argument
  `fs.rename` hands to its callback when it is called on it.
* The effects of a run are recorded as a list of events.
-/

namespace Rename

/-! ## Strings -/

/-- A JavaScript string. -/
abbrev JSString := List Char

/-- `s.replace(/pat/g, rep)` for a non-empty literal pattern `pat` and a
replacement `rep` without `$`: the string is scanned from left to right; the
first argument is the number of characters still covered by the last match
(`lastIndex` minus the current index).  Where the pattern matches, `rep` is
emitted and the search resumes right after the match; any other character is
copied. -/
def replaceFrom (pat rep : JSString) : Nat → JSString → JSString
  | _, [] => []
  | k + 1, _ :: cs => replaceFrom pat rep k cs
  | 0, c :: cs =>
    if pat.isPrefixOf (c :: cs) then rep ++ replaceFrom pat rep (pat.length - 1) cs
    else c :: replaceFrom pat rep 0 cs

/-- `s.replace(/pat/g, rep)`: the scan starts at index 0. -/
def replace (s pat rep : JSString) : JSString := replaceFrom pat rep 0 s

/-- Line 3: `const folderName = 'operator'`. -/
def folderName : JSString := "operator".toList

/-- Lines 17-18: `let newName = file.replace(/_/g, '-');`
`newName = newName.replace(/lox/g, 'lax')`. -/
def newName (file : JSString) : JSString :=
  replace (replace file "_".toList "-".toList) "lox".toList "lax".toList

/-! ## The program -/

/-- A Node.js error value (its code or message). -/
abbrev Err := String

/-- What a call of `fs.statSync` does: it throws, or it returns a `Stats`
object, of which the program reads `isFile()` only. -/
inductive StatResult where
  | throws (err : Err)
  | returns (isFile : Bool)
  deriving DecidableEq

/-- One name returned by `fs.readdir`, together with what the file system
answers for it during the run: `stat` is what `fs.statSync` does on its path
and `renameErr` is the outcome of `fs.rename` on it, the `err` argument for its
callback (`none` for `null`: the rename succeeded). -/
structure Entry where
  name : JSString
  stat : StatResult
  renameErr : Option Err
  deriving DecidableEq

/-- The observable effects of a run. -/
inductive Event where
  | statSync (path : JSString)
  | rename (oldPath newPath : JSString)
  | consoleError (msg : JSString) (err : Err)
  | consoleLog (line : JSString)
  | uncaught (err : Err)
  deriving DecidableEq

/-- `path.join(folderPath, file)` for a normalised directory path and a name
that is a single path segment, as the names listed by `fs.readdir` are. -/
def path.join (folderPath file : JSString) : JSString := folderPath ++ '/' :: file

/-- The template literal of line 25. -/
def setPropertyLine (newName : JSString) : JSString :=
  "set_property(TEST ".toList ++ folderName ++ '/' :: newName ++
    " PROPERTY PASS_REGULAR_EXPRESSION \"\")".toList

/-- An `fs.rename` request in flight: the variable `newName` its callback
closes over, and the `err` the callback will receive. -/
structure Pending where
  newName : JSString
  err : Option Err
  deriving DecidableEq

/-- Lines 21-27: the callback of `fs.rename`. -/
def renameCallback (p : Pending) : Event :=
  match p.err with
  | some err => .consoleError "Error renaming file:".toList err
  | none => .consoleLog (setPropertyLine p.newName)

/-- What a piece of synchronous code has done: the events in program order,
the `fs.rename` requests it has issued, and the exception it has thrown, if
any. -/
structure Step where
  events : List Event
  pending : List Pending
  thrown : Option Err
  deriving DecidableEq

/-- Lines 12-29: the callback of `files.forEach`, applied to one entry.
`fs.statSync` is not inside a `try`: when it throws, the callback is left with
that exception. -/
def forEachCallback (folderPath : JSString) (file : Entry) : Step :=
  let filePath := path.join folderPath file.name
  match file.stat with
  | .throws err => ⟨[.statSync filePath], [], some err⟩
  | .returns isFile =>
    if isFile then
      let newFilePath := path.join folderPath (newName file.name)
      ⟨[.statSync filePath, .rename filePath newFilePath],
        [⟨newName file.name, file.renameErr⟩], none⟩
    else ⟨[.statSync filePath], [], none⟩

/-- `files.forEach(callback)`: the callback is applied to the entries in
order; an exception thrown by one call ends the loop. -/
def forEach (folderPath : JSString) : List Entry → Step
  | [] => ⟨[], [], none⟩
  | file :: files =>
    let s := forEachCallback folderPath file
    match s.thrown with
    | some _ => s
    | none =>
      let r := forEach folderPath files
      ⟨s.events ++ r.events, s.pending ++ r.pending, r.thrown⟩

/-- The order in which the event loop delivers the completions of the pending
`fs.rename` requests: some rearrangement of the order of issue. -/
structure Scheduler where
  order : List Pending → List Pending
  perm : ∀ ps, (order ps).Perm ps

/-- Completions delivered in the order of issue. -/
def fifo : Scheduler := ⟨fun ps => ps, fun ps => List.Perm.refl ps⟩

/-- Completions delivered in the reverse of the order of issue. -/
def lifo : Scheduler := ⟨List.reverse, List.reverse_perm⟩

/-- Lines 6-30: the callback of `fs.readdir`, followed by the callbacks of the
`fs.rename` requests it has issued.  `listing` is what `fs.readdir` answers.
An exception that leaves the `fs.readdir` callback is caught nowhere: the
process terminates and no `fs.rename` callback is called. -/
def main (sched : Scheduler) (folderPath : JSString) (listing : Except Err (List Entry)) :
    List Event :=
  match listing with
  | .error err => [.consoleError "Error reading directory:".toList err]
  | .ok files =>
    let s := forEach folderPath files
    match s.thrown with
    | some err => s.events ++ [.uncaught err]
    | none => s.events ++ (sched.order s.pending).map renameCallback

/-- The `fs.rename` callbacks that are called in a run over `files`, in the
order of the calls: none when the synchronous part ended with an exception,
all the pending ones otherwise. -/
def delivered (sched : Scheduler) (folderPath : JSString) (files : List Entry) : List Pending :=
  match (forEach folderPath files).thrown with
  | some _ => []
  | none => sched.order (forEach folderPath files).pending

/-- `fs.statSync` returns for this entry. -/
def Entry.statOk (e : Entry) : Bool :=
  match e.stat with
  | .returns _ => true
  | .throws _ => false

/-- The entry is classified as a regular file: `fs.statSync` returns and
`stat.isFile()` is true. -/
def Entry.isFile (e : Entry) : Bool :=
  match e.stat with
  | .returns b => b
  | .throws _ => false

/-! ## Projections of a trace -/

/-- The `fs.rename` calls of a trace, as pairs (old path, new path). -/
def renames : List Event → List (JSString × JSString)
  | [] => []
  | .rename o n :: t => (o, n) :: renames t
  | _ :: t => renames t

/-- The paths `fs.statSync` was called on. -/
def stats : List Event → List JSString
  | [] => []
  | .statSync p :: t => p :: stats t
  | _ :: t => stats t

/-- The lines written to standard output. -/
def stdout : List Event → List JSString
  | [] => []
  | .consoleLog l :: t => l :: stdout t
  | _ :: t => stdout t

/-- The diagnostics written to standard error by `console.error`. -/
def stderr : List Event → List (JSString × Err)
  | [] => []
  | .consoleError m e :: t => (m, e) :: stderr t
  | _ :: t => stderr t

/-- The exceptions that left the program uncaught. -/
def uncaughts : List Event → List Err
  | [] => []
  | .uncaught e :: t => e :: uncaughts t
  | _ :: t => uncaughts t

/-! ## The wording of the specification, for comparison -/

/-- Spec wording: "every underscore character replaced by a hyphen". -/
def specHyphens (f : JSString) : JSString := f.map (fun c => if c = '_' then '-' else c)

/-- The substring "lox" occurs in `s` at index `i`. -/
def loxAt (s : JSString) (i : Nat) : Bool := "lox".toList.isPrefixOf (s.drop i)

/-- Spec wording: "every literal occurrence of the substring "lox" replaced by
"lax"", read index by index: the character at index `j` of the result is the
first, second or third character of "lax" when an occurrence of "lox" starts
at `j`, `j - 1` or `j - 2`, and the character of `s` at `j` otherwise. -/
def specLaxChar (s : JSString) (j : Nat) : Char :=
  if loxAt s j then 'l'
  else if 1 ≤ j ∧ loxAt s (j - 1) then 'a'
  else if 2 ≤ j ∧ loxAt s (j - 2) then 'x'
  else s.getD j 'x'

/-- Spec wording: the string with every occurrence of "lox" replaced. -/
def specLax (s : JSString) : JSString := (List.range s.length).map (specLaxChar s)

/-- Spec wording: the underscore pass, then the "lox" pass. -/
def specNewName (f : JSString) : JSString := specLax (specHyphens f)

/-- The "lox" pass of line 18 on its own. -/
abbrev lax (s : JSString) : JSString := replace s "lox".toList "lax".toList

/-- The two passes in the other order: "lox" first, underscores second. -/
def loxFirst (file : JSString) : JSString :=
  replace (replace file "lox".toList "lax".toList) "_".toList "-".toList

/-! ## Sample runs -/

example : newName "test_lox_case.txt".toList = "test-lax-case.txt".toList := by decide
example : newName "a_lox".toList = newName "a-lax".toList := by decide
example : newName "lloxoxlox_".toList = "llaxoxlax-".toList := by decide

example : main fifo "/r/tests/operator".toList
    (.ok [⟨"test_lox_case.txt".toList, .returns true, none⟩,
      ⟨"sub".toList, .returns false, none⟩]) =
    [.statSync "/r/tests/operator/test_lox_case.txt".toList,
     .rename "/r/tests/operator/test_lox_case.txt".toList
       "/r/tests/operator/test-lax-case.txt".toList,
     .statSync "/r/tests/operator/sub".toList,
     .consoleLog
       "set_property(TEST operator/test-lax-case.txt PROPERTY PASS_REGULAR_EXPRESSION \"\")".toList] := by
  decide

example : main lifo "/d".toList
    (.ok [⟨"a".toList, .returns true, some "EACCES"⟩, ⟨"b".toList, .throws "ENOENT", none⟩,
      ⟨"c".toList, .returns true, none⟩]) =
    [.statSync "/d/a".toList, .rename "/d/a".toList "/d/a".toList, .statSync "/d/b".toList,
      .uncaught "ENOENT"] := by
  decide

/-! ## The two substitutions -/

theorem lax_nil : lax [] = [] := rfl

theorem lax_hit (rest : JSString) :
    lax ('l' :: 'o' :: 'x' :: rest) = 'l' :: 'a' :: 'x' :: lax rest := by
  simp [lax, replace, replaceFrom, List.isPrefixOf]

theorem lax_miss (c : Char) (cs : JSString) (h : loxAt (c :: cs) 0 = false) :
    lax (c :: cs) = c :: lax cs := by
  have h' : "lox".toList.isPrefixOf (c :: cs) = false := h
  show replaceFrom "lox".toList "lax".toList 0 (c :: cs) = c :: replaceFrom _ _ 0 cs
  rw [replaceFrom]
  simp only [h', Bool.false_eq_true, if_false]

theorem loxAt_zero_iff (s : JSString) :
    loxAt s 0 = true ↔ ∃ rest, s = 'l' :: 'o' :: 'x' :: rest := by
  constructor
  · intro h
    rcases s with _ | ⟨a, _ | ⟨b, _ | ⟨c, rest⟩⟩⟩ <;> simp [loxAt, List.isPrefixOf] at h
    obtain ⟨rfl, rfl, rfl⟩ := h
    exact ⟨rest, rfl⟩
  · rintro ⟨rest, rfl⟩
    simp [loxAt, List.isPrefixOf]

/-- Induction along the left-to-right scan of the "lox" pass. -/
theorem lox_induction {P : JSString → Prop} (nil : P [])
    (hit : ∀ rest, P rest → P ('l' :: 'o' :: 'x' :: rest))
    (miss : ∀ c cs, loxAt (c :: cs) 0 = false → P cs → P (c :: cs)) : ∀ s, P s := by
  suffices H : ∀ n (s : JSString), s.length = n → P s from fun s => H _ s rfl
  intro n
  induction n using Nat.strong_induction_on with
  | _ n ih =>
    intro s h
    cases s with
    | nil => exact nil
    | cons c cs =>
      by_cases hl : loxAt (c :: cs) 0 = true
      · obtain ⟨rest, hr⟩ := (loxAt_zero_iff _).1 hl
        rw [hr]
        refine hit rest (ih rest.length ?_ rest rfl)
        rw [← h, hr]
        simp only [List.length_cons]
        omega
      · refine miss c cs (by simpa using hl) (ih cs.length ?_ cs rfl)
        rw [← h]
        simp

theorem replace_underscore (s : JSString) :
    replace s "_".toList "-".toList = specHyphens s := by
  induction s with
  | nil => rfl
  | cons c cs ih =>
    show replaceFrom "_".toList "-".toList 0 (c :: cs) = _
    rw [replaceFrom]
    have ih' : replaceFrom "_".toList "-".toList 0 cs = specHyphens cs := ih
    by_cases hc : c = '_'
    · subst hc
      simp [specHyphens, List.isPrefixOf] at ih' ⊢
      exact ih'
    · have hc' : ¬ '_' = c := fun h => hc h.symm
      simp [specHyphens, List.isPrefixOf, hc, hc'] at ih' ⊢
      exact ih'

theorem newName_eq (f : JSString) : newName f = lax (specHyphens f) := by
  simp only [newName, replace_underscore]

theorem loxFirst_eq (f : JSString) : loxFirst f = specHyphens (lax f) := by
  simp only [loxFirst, replace_underscore]

theorem length_lax (s : JSString) : (lax s).length = s.length := by
  induction s using lox_induction with
  | nil => rfl
  | hit rest ih => rw [lax_hit]; simp [ih]
  | miss c cs h ih => rw [lax_miss c cs h]; simp [ih]

theorem loxAt_succ (c : Char) (cs : JSString) (i : Nat) :
    loxAt (c :: cs) (i + 1) = loxAt cs i := rfl

theorem specLaxChar_succ (c : Char) (cs : JSString) (h : loxAt (c :: cs) 0 = false) (i : Nat) :
    specLaxChar (c :: cs) (i + 1) = specLaxChar cs i := by
  unfold specLaxChar
  rcases i with _ | _ | i
  · simp [loxAt_succ, h]
  · simp [loxAt_succ, h]
  · simp [loxAt_succ]

theorem specLax_miss (c : Char) (cs : JSString) (h : loxAt (c :: cs) 0 = false) :
    specLax (c :: cs) = c :: specLax cs := by
  unfold specLax
  rw [List.length_cons, List.range_succ_eq_map, List.map_cons, List.map_map]
  congr 1
  · simp [specLaxChar, h]
  · apply List.map_congr_left
    intro i _
    exact specLaxChar_succ c cs h i

theorem specLaxChar_hit (rest : JSString) (i : Nat) :
    specLaxChar ('l' :: 'o' :: 'x' :: rest) (i + 3) = specLaxChar rest i := by
  unfold specLaxChar
  rcases i with _ | _ | i
  · simp [loxAt, List.isPrefixOf]
  · simp [loxAt, List.isPrefixOf]
  · simp [loxAt]

theorem specLax_hit (rest : JSString) :
    specLax ('l' :: 'o' :: 'x' :: rest) = 'l' :: 'a' :: 'x' :: specLax rest := by
  unfold specLax
  simp only [List.length_cons, List.range_succ_eq_map, List.map_cons, List.map_map]
  refine congrArg₂ _ ?_ (congrArg₂ _ ?_ (congrArg₂ _ ?_ ?_))
  · simp [specLaxChar, loxAt, List.isPrefixOf]
  · simp [specLaxChar, loxAt, List.isPrefixOf]
  · simp [specLaxChar, loxAt, List.isPrefixOf]
  · apply List.map_congr_left
    intro i _
    exact specLaxChar_hit rest i

theorem lax_eq_specLax (s : JSString) : lax s = specLax s := by
  induction s using lox_induction with
  | nil => rfl
  | hit rest ih => rw [lax_hit, specLax_hit, ih]
  | miss c cs h ih => rw [lax_miss c cs h, specLax_miss c cs h, ih]

theorem beq_char (k a : Char) : (k == a) = decide (a = k) := by
  by_cases h : a = k
  · subst h
    simp
  · have h' : ¬ k = a := fun e => h e.symm
    simp [h, h']

theorem loxAt_cons_cons_cons (a b c : Char) (t : JSString) :
    loxAt (a :: b :: c :: t) 0 = (decide (a = 'l') && decide (b = 'o') && decide (c = 'x')) := by
  show List.isPrefixOf ['l', 'o', 'x'] (a :: b :: c :: t) = _
  simp only [List.isPrefixOf, beq_char, Bool.and_true, Bool.and_assoc]

theorem loxAt_cons_cons_of_ne (c d : Char) (t : JSString) (hd : d ≠ 'o') :
    loxAt (c :: d :: t) 0 = false := by
  show List.isPrefixOf ['l', 'o', 'x'] (c :: d :: t) = _
  simp only [List.isPrefixOf, beq_char]
  simp [hd]

theorem lax_cons_of_ne (c : Char) (cs : JSString) (hc : c ≠ 'l') : lax (c :: cs) = c :: lax cs := by
  apply lax_miss
  have hc' : ¬ 'l' = c := fun h => hc h.symm
  simp [loxAt, List.isPrefixOf, hc']

/-- Whether "lox" starts at `c` is not changed by the "lox" pass on what follows `c`. -/
theorem loxAt_cons_lax (c : Char) (cs : JSString) : loxAt (c :: lax cs) 0 = loxAt (c :: cs) 0 := by
  rcases cs with _ | ⟨d, ds⟩
  · rfl
  · by_cases hd : d = 'o'
    · subst hd
      rw [lax_cons_of_ne _ _ (by decide)]
      rcases ds with _ | ⟨e, es⟩
      · rfl
      · by_cases he : loxAt (e :: es) 0 = true
        · obtain ⟨rest, hr⟩ := (loxAt_zero_iff _).1 he
          rw [hr, lax_hit, loxAt_cons_cons_cons, loxAt_cons_cons_cons]
        · rw [lax_miss e es (by simpa using he), loxAt_cons_cons_cons, loxAt_cons_cons_cons]
    · by_cases hl : loxAt (d :: ds) 0 = true
      · obtain ⟨rest, hr⟩ := (loxAt_zero_iff _).1 hl
        rw [hr, lax_hit, loxAt_cons_cons_cons, loxAt_cons_cons_cons]
        simp
      · rw [lax_miss d ds (by simpa using hl), loxAt_cons_cons_of_ne c d _ hd,
          loxAt_cons_cons_of_ne c d _ hd]

theorem lax_lax (s : JSString) : lax (lax s) = lax s := by
  induction s using lox_induction with
  | nil => rfl
  | hit rest ih =>
    rw [lax_hit, lax_miss 'l' _ (by rw [loxAt_cons_cons_cons]; decide),
      lax_cons_of_ne 'a' _ (by decide), lax_cons_of_ne 'x' _ (by decide), ih]
  | miss c cs h ih =>
    rw [lax_miss c cs h, lax_miss c (lax cs) (by rw [loxAt_cons_lax]; exact h), ih]

theorem hyphen_eq_iff (a c : Char) (h₁ : c ≠ '_') (h₂ : c ≠ '-') :
    (if a = '_' then '-' else a) = c ↔ a = c := by
  by_cases ha : a = '_'
  · subst ha
    simp only [if_true]
    exact ⟨fun h => absurd h.symm h₂, fun h => absurd h.symm h₁⟩
  · simp only [ha, if_false]

theorem specHyphens_cons (c : Char) (cs : JSString) :
    specHyphens (c :: cs) = (if c = '_' then '-' else c) :: specHyphens cs := rfl

theorem loxAt_specHyphens (s : JSString) : loxAt (specHyphens s) 0 = loxAt s 0 := by
  rcases s with _ | ⟨a, _ | ⟨b, _ | ⟨c, rest⟩⟩⟩
  · rfl
  · simp [specHyphens, loxAt, List.isPrefixOf]
  · simp [specHyphens, loxAt, List.isPrefixOf]
  · simp only [specHyphens_cons, loxAt_cons_cons_cons]
    rw [decide_eq_decide.2 (hyphen_eq_iff a 'l' (by decide) (by decide)),
      decide_eq_decide.2 (hyphen_eq_iff b 'o' (by decide) (by decide)),
      decide_eq_decide.2 (hyphen_eq_iff c 'x' (by decide) (by decide))]

/-- The two passes commute. -/
theorem specHyphens_lax (s : JSString) : specHyphens (lax s) = lax (specHyphens s) := by
  induction s using lox_induction with
  | nil => rfl
  | hit rest ih =>
    rw [lax_hit]
    simp only [specHyphens_cons]
    rw [ih]
    exact (lax_hit _).symm
  | miss c cs h ih =>
    rw [lax_miss c cs h, specHyphens_cons, specHyphens_cons, ih]
    refine (lax_miss _ _ ?_).symm
    rw [← specHyphens_cons, loxAt_specHyphens]
    exact h

theorem specHyphens_specHyphens (s : JSString) : specHyphens (specHyphens s) = specHyphens s := by
  induction s with
  | nil => rfl
  | cons c cs ih =>
    rw [specHyphens_cons, specHyphens_cons, ih]
    by_cases hc : c = '_' <;> simp [hc]

theorem lax_of_not_infix (s : JSString) (h : ¬ "lox".toList <:+: s) : lax s = s := by
  induction s using lox_induction with
  | nil => rfl
  | hit rest _ => exact absurd ⟨[], rest, rfl⟩ h
  | miss c cs hc ih => rw [lax_miss c cs hc, ih (fun hi => h (List.infix_cons hi))]

theorem specHyphens_of_not_mem (s : JSString) (h : '_' ∉ s) : specHyphens s = s := by
  induction s with
  | nil => rfl
  | cons c cs ih =>
    rw [List.mem_cons, not_or] at h
    rw [specHyphens_cons, ih h.2, if_neg (fun e => h.1 e.symm)]

theorem lax_getElem? (s : JSString) (i : Nat) :
    (lax s)[i]? = s[i]? ∨ (s[i]? = some 'o' ∧ (lax s)[i]? = some 'a') := by
  induction s using lox_induction generalizing i with
  | nil => exact Or.inl rfl
  | hit rest ih =>
    rw [lax_hit]
    rcases i with _ | _ | _ | i
    · simp
    · simp
    · simp
    · simpa using ih i
  | miss c cs h ih =>
    rw [lax_miss c cs h]
    rcases i with _ | i
    · simp
    · simpa using ih i

theorem specHyphens_getElem? (s : JSString) (i : Nat) :
    (specHyphens s)[i]? = s[i]? ∨ (s[i]? = some '_' ∧ (specHyphens s)[i]? = some '-') := by
  unfold specHyphens
  rw [List.getElem?_map]
  rcases hs : s[i]? with _ | c
  · exact Or.inl rfl
  · by_cases hc : c = '_'
    · subst hc
      exact Or.inr ⟨rfl, by simp⟩
    · exact Or.inl (by simp [hc])

theorem specHyphens_getElem?_eq_o (s : JSString) (i : Nat) (h : (specHyphens s)[i]? = some 'o') :
    s[i]? = some 'o' := by
  unfold specHyphens at h
  rw [List.getElem?_map] at h
  rcases hs : s[i]? with _ | c
  · rw [hs] at h
    simp at h
  · rw [hs] at h
    simp only [Option.map_some', Option.some.injEq] at h
    rw [(hyphen_eq_iff c 'o' (by decide) (by decide)).1 h]

/-- Character by character, the new name differs from the name only where an
underscore became a hyphen or an `o` became an `a`. -/
theorem newName_getElem? (f : JSString) (i : Nat) :
    (newName f)[i]? = f[i]? ∨ (f[i]? = some '_' ∧ (newName f)[i]? = some '-') ∨
      (f[i]? = some 'o' ∧ (newName f)[i]? = some 'a') := by
  rw [newName_eq]
  rcases lax_getElem? (specHyphens f) i with h | ⟨h₁, h₂⟩
  · rcases specHyphens_getElem? f i with g | ⟨g₁, g₂⟩
    · exact Or.inl (h.trans g)
    · exact Or.inr (Or.inl ⟨g₁, h.trans g₂⟩)
  · exact Or.inr (Or.inr ⟨specHyphens_getElem?_eq_o f i h₁, h₂⟩)

theorem length_newName (f : JSString) : (newName f).length = f.length := by
  rw [newName_eq, length_lax]
  simp [specHyphens]

theorem newName_newName (f : JSString) : newName (newName f) = newName f := by
  rw [newName_eq (newName f), newName_eq f, specHyphens_lax, specHyphens_specHyphens, lax_lax]

theorem loxFirst_eq_newName (f : JSString) : loxFirst f = newName f := by
  rw [loxFirst_eq, newName_eq, specHyphens_lax]

theorem newName_of_clean (f : JSString) (h₁ : '_' ∉ f) (h₂ : ¬ "lox".toList <:+: f) :
    newName f = f := by
  rw [newName_eq, specHyphens_of_not_mem f h₁, lax_of_not_infix f h₂]

/-! ## Traces -/

theorem renames_append (a b : List Event) : renames (a ++ b) = renames a ++ renames b := by
  induction a with
  | nil => rfl
  | cons e t ih => cases e <;> simp [renames, ih]

theorem stats_append (a b : List Event) : stats (a ++ b) = stats a ++ stats b := by
  induction a with
  | nil => rfl
  | cons e t ih => cases e <;> simp [stats, ih]

theorem stdout_append (a b : List Event) : stdout (a ++ b) = stdout a ++ stdout b := by
  induction a with
  | nil => rfl
  | cons e t ih => cases e <;> simp [stdout, ih]

theorem stderr_append (a b : List Event) : stderr (a ++ b) = stderr a ++ stderr b := by
  induction a with
  | nil => rfl
  | cons e t ih => cases e <;> simp [stderr, ih]

theorem uncaughts_append (a b : List Event) :
    uncaughts (a ++ b) = uncaughts a ++ uncaughts b := by
  induction a with
  | nil => rfl
  | cons e t ih => cases e <;> simp [uncaughts, ih]

theorem renameCallback_cases (p : Pending) :
    (p.err = none ∧ renameCallback p = .consoleLog (setPropertyLine p.newName)) ∨
      ∃ err, p.err = some err ∧
        renameCallback p = .consoleError "Error renaming file:".toList err := by
  rcases p with ⟨n, _ | err⟩
  · exact Or.inl ⟨rfl, rfl⟩
  · exact Or.inr ⟨err, rfl, rfl⟩

theorem renames_callbacks (ps : List Pending) : renames (ps.map renameCallback) = [] := by
  induction ps with
  | nil => rfl
  | cons p t ih =>
    rcases renameCallback_cases p with ⟨_, h⟩ | ⟨err, _, h⟩ <;> simp [h, renames, ih]

theorem stats_callbacks (ps : List Pending) : stats (ps.map renameCallback) = [] := by
  induction ps with
  | nil => rfl
  | cons p t ih =>
    rcases renameCallback_cases p with ⟨_, h⟩ | ⟨err, _, h⟩ <;> simp [h, stats, ih]

theorem uncaughts_callbacks (ps : List Pending) : uncaughts (ps.map renameCallback) = [] := by
  induction ps with
  | nil => rfl
  | cons p t ih =>
    rcases renameCallback_cases p with ⟨_, h⟩ | ⟨err, _, h⟩ <;> simp [h, uncaughts, ih]

theorem stdout_callbacks (ps : List Pending) :
    stdout (ps.map renameCallback) =
      (ps.filter (fun p => p.err.isNone)).map (fun p => setPropertyLine p.newName) := by
  induction ps with
  | nil => rfl
  | cons p t ih =>
    rcases renameCallback_cases p with ⟨hp, h⟩ | ⟨err, hp, h⟩ <;> simp [h, hp, stdout, ih]

theorem stderr_callbacks (ps : List Pending) :
    stderr (ps.map renameCallback) =
      ps.filterMap (fun p => p.err.map (fun err => ("Error renaming file:".toList, err))) := by
  induction ps with
  | nil => rfl
  | cons p t ih =>
    rcases renameCallback_cases p with ⟨hp, h⟩ | ⟨err, hp, h⟩ <;> simp [h, hp, stderr, ih]

/-! ## The loop over the listing -/

theorem forEachCallback_file (dir : JSString) (e : Entry) (h : e.stat = .returns true) :
    forEachCallback dir e =
      ⟨[.statSync (path.join dir e.name),
          .rename (path.join dir e.name) (path.join dir (newName e.name))],
        [⟨newName e.name, e.renameErr⟩], none⟩ := by
  simp [forEachCallback, h]

theorem forEachCallback_other (dir : JSString) (e : Entry) (h : e.stat = .returns false) :
    forEachCallback dir e = ⟨[.statSync (path.join dir e.name)], [], none⟩ := by
  simp [forEachCallback, h]

theorem forEachCallback_throws (dir : JSString) (e : Entry) (err : Err)
    (h : e.stat = .throws err) :
    forEachCallback dir e = ⟨[.statSync (path.join dir e.name)], [], some err⟩ := by
  simp [forEachCallback, h]

theorem forEachCallback_of_statOk (dir : JSString) (e : Entry) (h : e.statOk = true) :
    forEachCallback dir e =
      ⟨.statSync (path.join dir e.name) ::
          (if e.isFile then [.rename (path.join dir e.name) (path.join dir (newName e.name))]
           else []),
        if e.isFile then [⟨newName e.name, e.renameErr⟩] else [], none⟩ := by
  rcases e with ⟨n, _ | _ | _, r⟩ <;> simp [forEachCallback, Entry.statOk, Entry.isFile] at h ⊢

theorem forEach_cons_of_statOk (dir : JSString) (e : Entry) (es : List Entry)
    (h : e.statOk = true) :
    forEach dir (e :: es) =
      ⟨(forEachCallback dir e).events ++ (forEach dir es).events,
        (forEachCallback dir e).pending ++ (forEach dir es).pending,
        (forEach dir es).thrown⟩ := by
  rw [forEach]
  simp only [forEachCallback_of_statOk dir e h]

theorem forEach_cons_of_throws (dir : JSString) (e : Entry) (es : List Entry) (err : Err)
    (h : e.stat = .throws err) :
    forEach dir (e :: es) = ⟨[.statSync (path.join dir e.name)], [], some err⟩ := by
  rw [forEach]
  simp only [forEachCallback_throws dir e err h]

theorem forEach_append (dir : JSString) (pre post : List Entry)
    (h : ∀ e ∈ pre, e.statOk = true) :
    forEach dir (pre ++ post) =
      ⟨(forEach dir pre).events ++ (forEach dir post).events,
        (forEach dir pre).pending ++ (forEach dir post).pending,
        (forEach dir post).thrown⟩ := by
  induction pre with
  | nil => simp [forEach]
  | cons e es ih =>
    have he := h e (List.mem_cons_self e es)
    have ih' := ih (fun x hx => h x (List.mem_cons_of_mem e hx))
    rw [List.cons_append, forEach_cons_of_statOk dir e _ he, forEach_cons_of_statOk dir e es he, ih']
    simp

theorem forEach_of_statOk (dir : JSString) (files : List Entry)
    (h : ∀ e ∈ files, e.statOk = true) :
    (forEach dir files).thrown = none ∧
    (forEach dir files).pending =
      (files.filter Entry.isFile).map (fun e => ⟨newName e.name, e.renameErr⟩) ∧
    renames (forEach dir files).events =
      (files.filter Entry.isFile).map
        (fun e => (path.join dir e.name, path.join dir (newName e.name))) ∧
    stats (forEach dir files).events = files.map (fun e => path.join dir e.name) := by
  induction files with
  | nil => simp [forEach, renames, stats]
  | cons e es ih =>
    have he := h e (List.mem_cons_self e es)
    obtain ⟨h₁, h₂, h₃, h₄⟩ := ih (fun x hx => h x (List.mem_cons_of_mem e hx))
    rw [forEach_cons_of_statOk dir e es he, forEachCallback_of_statOk dir e he]
    refine ⟨h₁, ?_, ?_, ?_⟩
    · by_cases hf : e.isFile = true <;> simp [hf, h₂]
    · by_cases hf : e.isFile = true <;> simp [hf, h₃, renames]
    · by_cases hf : e.isFile = true <;> simp [hf, h₄, stats]

theorem forEach_silent (dir : JSString) (files : List Entry) :
    stdout (forEach dir files).events = [] ∧ stderr (forEach dir files).events = [] ∧
      uncaughts (forEach dir files).events = [] := by
  induction files with
  | nil => simp [forEach, stdout, stderr, uncaughts]
  | cons e es ih =>
    rcases hs : e.stat with err | b
    · rw [forEach_cons_of_throws dir e es err hs]
      simp [stdout, stderr, uncaughts]
    · have he : e.statOk = true := by simp [Entry.statOk, hs]
      rw [forEach_cons_of_statOk dir e es he, forEachCallback_of_statOk dir e he]
      by_cases hf : e.isFile = true <;> simp [hf, ih, stdout, stderr, uncaughts]

theorem main_of_statOk (sched : Scheduler) (dir : JSString) (files : List Entry)
    (h : ∀ e ∈ files, e.statOk = true) :
    main sched dir (.ok files) =
      (forEach dir files).events ++
        (sched.order (forEach dir files).pending).map renameCallback := by
  simp only [main, (forEach_of_statOk dir files h).1]

theorem delivered_of_statOk (sched : Scheduler) (dir : JSString) (files : List Entry)
    (h : ∀ e ∈ files, e.statOk = true) :
    delivered sched dir files = sched.order (forEach dir files).pending := by
  simp only [delivered, (forEach_of_statOk dir files h).1]

theorem stdout_main (sched : Scheduler) (dir : JSString) (files : List Entry) :
    stdout (main sched dir (.ok files)) =
      ((delivered sched dir files).filter (fun p => p.err.isNone)).map
        (fun p => setPropertyLine p.newName) := by
  unfold main delivered
  rcases ht : (forEach dir files).thrown with _ | err
  · simp only [ht, stdout_append, (forEach_silent dir files).1, List.nil_append, stdout_callbacks]
  · simp [ht, stdout_append, (forEach_silent dir files).1, stdout]

theorem stderr_main (sched : Scheduler) (dir : JSString) (files : List Entry) :
    stderr (main sched dir (.ok files)) =
      (delivered sched dir files).filterMap
        (fun p => p.err.map (fun err => ("Error renaming file:".toList, err))) := by
  unfold main delivered
  rcases ht : (forEach dir files).thrown with _ | err
  · simp only [ht, stderr_append, (forEach_silent dir files).2.1, List.nil_append,
      stderr_callbacks]
  · simp [ht, stderr_append, (forEach_silent dir files).2.1, stderr]

theorem renames_main (sched : Scheduler) (dir : JSString) (files : List Entry) :
    renames (main sched dir (.ok files)) = renames (forEach dir files).events := by
  unfold main
  rcases ht : (forEach dir files).thrown with _ | err
  · simp [ht, renames_append, renames_callbacks]
  · simp [ht, renames_append, renames]

theorem stats_main (sched : Scheduler) (dir : JSString) (files : List Entry) :
    stats (main sched dir (.ok files)) = stats (forEach dir files).events := by
  unfold main
  rcases ht : (forEach dir files).thrown with _ | err
  · simp [ht, stats_append, stats_callbacks]
  · simp [ht, stats_append, stats]

theorem delivered_perm (sched : Scheduler) (dir : JSString) (files : List Entry)
    (h : ∀ e ∈ files, e.statOk = true) :
    (delivered sched dir files).Perm
      ((files.filter Entry.isFile).map (fun e => ⟨newName e.name, e.renameErr⟩)) := by
  rw [delivered_of_statOk sched dir files h, ← (forEach_of_statOk dir files h).2.1]
  exact sched.perm _

theorem uncaughts_main_of_statOk (sched : Scheduler) (dir : JSString) (files : List Entry)
    (h : ∀ e ∈ files, e.statOk = true) : uncaughts (main sched dir (.ok files)) = [] := by
  rw [main_of_statOk sched dir files h, uncaughts_append, (forEach_silent dir files).2.2,
    uncaughts_callbacks]
  rfl

theorem callbacks_length {α β : Type} (g : Pending → α) (k : Err → β) (ps : List Pending) :
    ((ps.filter (fun p => p.err.isNone)).map g).length +
      (ps.filterMap (fun p => p.err.map k)).length = ps.length := by
  induction ps with
  | nil => rfl
  | cons p t ih =>
    simp only [List.length_map] at ih ⊢
    rcases p with ⟨n, _ | err⟩
    · simp [List.filter_cons, List.filterMap_cons]
      omega
    · simp [List.filter_cons, List.filterMap_cons]
      omega

theorem stdout_main_perm (sched : Scheduler) (dir : JSString) (files : List Entry)
    (h : ∀ e ∈ files, e.statOk = true) :
    (stdout (main sched dir (.ok files))).Perm
      ((files.filter (fun e => e.isFile && e.renameErr.isNone)).map
        (fun e => setPropertyLine (newName e.name))) := by
  rw [stdout_main]
  have hp := ((delivered_perm sched dir files h).filter (fun p => p.err.isNone)).map
    (fun p => setPropertyLine p.newName)
  refine hp.trans (List.Perm.of_eq ?_)
  simp [List.filter_map, List.filter_filter, Function.comp_def, Bool.and_comm]

theorem stderr_main_perm (sched : Scheduler) (dir : JSString) (files : List Entry)
    (h : ∀ e ∈ files, e.statOk = true) :
    (stderr (main sched dir (.ok files))).Perm
      ((files.filter Entry.isFile).filterMap
        (fun e => e.renameErr.map (fun err => ("Error renaming file:".toList, err)))) := by
  rw [stderr_main]
  have hp := (delivered_perm sched dir files h).filterMap
    (fun p => p.err.map (fun err => ("Error renaming file:".toList, err)))
  refine hp.trans (List.Perm.of_eq ?_)
  simp [List.filterMap_map, Function.comp_def]

theorem filter_isFile_of_files (files : List Entry) (h : ∀ e ∈ files, e.stat = .returns true) :
    files.filter Entry.isFile = files ∧ ∀ e ∈ files, e.statOk = true := by
  refine ⟨List.filter_eq_self.2 (fun e he => ?_), fun e he => ?_⟩
  · simp [Entry.isFile, h e he]
  · simp [Entry.statOk, h e he]

theorem rename_mem_main (sched : Scheduler) (dir : JSString) (pre post : List Entry) (e : Entry)
    (h : ∀ x ∈ pre, x.statOk = true) (he : e.stat = .returns true) :
    (path.join dir e.name, path.join dir (newName e.name)) ∈
      renames (main sched dir (.ok (pre ++ e :: post))) := by
  have hs : e.statOk = true := by simp [Entry.statOk, he]
  rw [renames_main, forEach_append dir pre (e :: post) h, forEach_cons_of_statOk dir e post hs,
    forEachCallback_file dir e he]
  simp [renames_append, renames]

/-! ## The claims -/

/-- Claim C1: for every file name, the new name the program computes is the
name with every underscore replaced by a hyphen and then every occurrence of
"lox" replaced by "lax"; the length is kept, and a character differs from the
original only where an underscore became a hyphen or an `o` became an `a`.
The name "test_lox_case.txt" gives "test-lax-case.txt". -/
theorem C1_newName_is_hyphens_then_lax (f : JSString) :
    newName f = specNewName f ∧
    (newName f).length = f.length ∧
    (∀ i : Nat, (newName f)[i]? = f[i]? ∨ (f[i]? = some '_' ∧ (newName f)[i]? = some '-') ∨
      (f[i]? = some 'o' ∧ (newName f)[i]? = some 'a')) ∧
    newName "test_lox_case.txt".toList = "test-lax-case.txt".toList :=
  ⟨by rw [newName_eq, lax_eq_specLax, specNewName], length_newName f, newName_getElem? f,
    by decide⟩

/-- Claim C6: when reading the directory fails, the run consists of exactly
one error message, "Error reading directory:" with the error; no stat, no
rename, no line on standard output. -/
theorem C6_readdir_error_is_fatal (sched : Scheduler) (dir : JSString) (err : Err) :
    main sched dir (.error err) = [.consoleError "Error reading directory:".toList err] ∧
    stats (main sched dir (.error err)) = [] ∧
    renames (main sched dir (.error err)) = [] ∧
    stdout (main sched dir (.error err)) = [] ∧
    stderr (main sched dir (.error err)) = [("Error reading directory:".toList, err)] ∧
    uncaughts (main sched dir (.error err)) = [] :=
  ⟨rfl, rfl, rfl, rfl, rfl, rfl⟩

/-- Claim C7: the name computation is idempotent: computing the new name of
an already renamed name returns it unchanged. -/
theorem C7_newName_idempotent (f : JSString) : newName (newName f) = newName f :=
  newName_newName f

/-- Claim C9, as stated, fails: no file name gives a different result when
the "lox" pass runs first and the underscore pass second. -/
theorem C9_no_order_dependent_name : ¬ ∃ f : JSString, loxFirst f ≠ newName f :=
  fun ⟨f, h⟩ => h (loxFirst_eq_newName f)

/-- Claim C9, amended: the two substitutions commute; for every file name,
running the "lox" pass first and the underscore pass second yields the same
name as the order of the program. -/
theorem C9_passes_commute (f : JSString) : loxFirst f = newName f :=
  loxFirst_eq_newName f

/-- The standard output of a run, callback by callback: a callback called
without an error prints the line
`set_property(TEST operator/<newName> PROPERTY PASS_REGULAR_EXPRESSION "")`, one
called with an error prints nothing there, and the standard output is one line
for each callback called without an error; when no stat throws, that is one
line for each regular file of the listing whose rename succeeds. -/
theorem stdout_of_run (sched : Scheduler) (dir : JSString) (files : List Entry) :
    (∀ n : JSString, renameCallback ⟨n, none⟩ = .consoleLog
      ("set_property(TEST operator/".toList ++ n ++
        " PROPERTY PASS_REGULAR_EXPRESSION \"\")".toList)) ∧
    (∀ (n : JSString) (err : Err), stdout [renameCallback ⟨n, some err⟩] = []) ∧
    stdout (main sched dir (.ok files)) =
      ((delivered sched dir files).filter (fun p => p.err.isNone)).map
        (fun p => setPropertyLine p.newName) ∧
    ((∀ e ∈ files, e.statOk = true) →
      (stdout (main sched dir (.ok files))).Perm
        ((files.filter (fun e => e.isFile && e.renameErr.isNone)).map
          (fun e => setPropertyLine (newName e.name)))) :=
  ⟨fun n => by simp [renameCallback, setPropertyLine, folderName], fun _ _ => rfl,
    stdout_main sched dir files, stdout_main_perm sched dir files⟩

/-- Claim C2 does not hold of the program: on the listing of the regular file
"a_lox", whose rename succeeds, followed by "b_lox", whose stat throws, the
rename of "a_lox" is issued, the exception of the stat ends the run before any
callback is called, and no `set_property` line is printed, under every order
of completion. -/
theorem C2_no_line_when_a_later_stat_throws (sched : Scheduler) :
    main sched "/r/tests/operator".toList
      (.ok [⟨"a_lox".toList, .returns true, none⟩, ⟨"b_lox".toList, .throws "ENOENT", none⟩]) =
      [.statSync "/r/tests/operator/a_lox".toList,
        .rename "/r/tests/operator/a_lox".toList "/r/tests/operator/a-lax".toList,
        .statSync "/r/tests/operator/b_lox".toList, .uncaught "ENOENT"] ∧
    renames (main sched "/r/tests/operator".toList
      (.ok [⟨"a_lox".toList, .returns true, none⟩, ⟨"b_lox".toList, .throws "ENOENT", none⟩])) =
      [("/r/tests/operator/a_lox".toList, "/r/tests/operator/a-lax".toList)] ∧
    stdout (main sched "/r/tests/operator".toList
      (.ok [⟨"a_lox".toList, .returns true, none⟩, ⟨"b_lox".toList, .throws "ENOENT", none⟩])) =
      [] := by
  have h : main sched "/r/tests/operator".toList
      (.ok [⟨"a_lox".toList, .returns true, none⟩, ⟨"b_lox".toList, .throws "ENOENT", none⟩]) =
      [.statSync "/r/tests/operator/a_lox".toList,
        .rename "/r/tests/operator/a_lox".toList "/r/tests/operator/a-lax".toList,
        .statSync "/r/tests/operator/b_lox".toList, .uncaught "ENOENT"] := by
    rfl
  rw [h]
  exact ⟨rfl, rfl, rfl⟩

/-- Claim C3: on a listing on which every stat returns, the renames issued are
exactly the entries classified as regular files, in listing order, one per
entry, each from `join(dir, name)` to `join(dir, newName(name))`; every entry is
stat-ed; an entry that is not a regular file issues no rename and prints
nothing, so the run prints as many messages as there are regular files. -/
theorem C3_renames_are_the_regular_files (sched : Scheduler) (dir : JSString)
    (files : List Entry) (h : ∀ e ∈ files, e.statOk = true) :
    renames (main sched dir (.ok files)) =
      (files.filter Entry.isFile).map
        (fun e => (path.join dir e.name, path.join dir (newName e.name))) ∧
    stats (main sched dir (.ok files)) = files.map (fun e => path.join dir e.name) ∧
    (∀ (n : JSString) (r : Option Err),
      forEachCallback dir ⟨n, .returns false, r⟩ = ⟨[.statSync (path.join dir n)], [], none⟩) ∧
    (stdout (main sched dir (.ok files))).length + (stderr (main sched dir (.ok files))).length =
      (files.filter Entry.isFile).length ∧
    uncaughts (main sched dir (.ok files)) = [] := by
  refine ⟨?_, ?_, fun n r => rfl, ?_, uncaughts_main_of_statOk sched dir files h⟩
  · rw [renames_main, (forEach_of_statOk dir files h).2.2.1]
  · rw [stats_main, (forEach_of_statOk dir files h).2.2.2]
  · rw [stdout_main, stderr_main, callbacks_length, (delivered_perm sched dir files h).length_eq,
      List.length_map]

/-- Witness of C3: a regular file between two directories. -/
theorem C3_renames_witness :
    (∀ e ∈ [(⟨"sub_a".toList, .returns false, none⟩ : Entry),
        ⟨"test_lox_case.txt".toList, .returns true, none⟩,
        ⟨"sub_b".toList, .returns false, none⟩], e.statOk = true) ∧
    renames (main lifo "/r".toList (.ok [⟨"sub_a".toList, .returns false, none⟩,
        ⟨"test_lox_case.txt".toList, .returns true, none⟩,
        ⟨"sub_b".toList, .returns false, none⟩])) =
      [("/r/test_lox_case.txt".toList, "/r/test-lax-case.txt".toList)] :=
  ⟨by decide,
    (C3_renames_are_the_regular_files lifo "/r".toList [⟨"sub_a".toList, .returns false, none⟩,
        ⟨"test_lox_case.txt".toList, .returns true, none⟩,
        ⟨"sub_b".toList, .returns false, none⟩] (by decide)).1⟩

/-- Claim C4: on a listing of regular files, whatever renames fail, a rename
is issued for every entry of the listing, in order; the diagnostics of the run
are one "Error renaming file:" message for each failed rename and its standard
output is the `set_property` line of each successful one. -/
theorem C4_rename_failures_are_isolated (sched : Scheduler) (dir : JSString)
    (files : List Entry) (h : ∀ e ∈ files, e.stat = .returns true) :
    renames (main sched dir (.ok files)) =
      files.map (fun e => (path.join dir e.name, path.join dir (newName e.name))) ∧
    (stderr (main sched dir (.ok files))).Perm
      (files.filterMap
        (fun e => e.renameErr.map (fun err => ("Error renaming file:".toList, err)))) ∧
    (stdout (main sched dir (.ok files))).Perm
      ((files.filter (fun e => e.renameErr.isNone)).map
        (fun e => setPropertyLine (newName e.name))) ∧
    uncaughts (main sched dir (.ok files)) = [] := by
  obtain ⟨hf, hs⟩ := filter_isFile_of_files files h
  refine ⟨?_, ?_, ?_, uncaughts_main_of_statOk sched dir files hs⟩
  · rw [renames_main, (forEach_of_statOk dir files hs).2.2.1, hf]
  · have hp := stderr_main_perm sched dir files hs
    rwa [hf] at hp
  · refine (stdout_main_perm sched dir files hs).trans (List.Perm.of_eq ?_)
    congr 1
    apply List.filter_congr
    intro e he
    simp [Entry.isFile, h e he]

/-- Witness of C4: the first and the third of three renames fail. -/
theorem C4_rename_failures_witness :
    (∀ e ∈ [(⟨"a_lox".toList, .returns true, some "EACCES"⟩ : Entry),
        ⟨"b_lox".toList, .returns true, none⟩,
        ⟨"c_lox".toList, .returns true, some "EBUSY"⟩], e.stat = .returns true) ∧
    renames (main lifo "/r".toList (.ok [⟨"a_lox".toList, .returns true, some "EACCES"⟩,
        ⟨"b_lox".toList, .returns true, none⟩,
        ⟨"c_lox".toList, .returns true, some "EBUSY"⟩])) =
      [("/r/a_lox".toList, "/r/a-lax".toList), ("/r/b_lox".toList, "/r/b-lax".toList),
        ("/r/c_lox".toList, "/r/c-lax".toList)] :=
  ⟨by decide,
    (C4_rename_failures_are_isolated lifo "/r".toList
      [⟨"a_lox".toList, .returns true, some "EACCES"⟩,
        ⟨"b_lox".toList, .returns true, none⟩,
        ⟨"c_lox".toList, .returns true, some "EBUSY"⟩] (by decide)).1⟩

/-- Claim C5 does not hold of the program: when the stat of entry "a_lox"
throws, nothing is reported, the entry after it is neither stat-ed nor
renamed, and the exception leaves the run uncaught. -/
theorem C5_stat_failure_ends_the_run :
    main fifo "/r/tests/operator".toList
      (.ok [⟨"a_lox".toList, .throws "ENOENT", none⟩, ⟨"b_lox".toList, .returns true, none⟩]) =
      [.statSync "/r/tests/operator/a_lox".toList, .uncaught "ENOENT"] := by
  decide

/-- Claim C8: a file name without underscore and without occurrence of "lox"
is its own new name, and for a regular file with such a name the rename is
still issued, from its path to the same path: by the callback applied to the
entry, and so in every run that reaches the entry. -/
theorem C8_unchanged_name_is_still_renamed (f : JSString) (h₁ : '_' ∉ f)
    (h₂ : ¬ "lox".toList <:+: f) :
    newName f = f ∧
    (∀ (dir : JSString) (r : Option Err), forEachCallback dir ⟨f, .returns true, r⟩ =
      ⟨[.statSync (path.join dir f), .rename (path.join dir f) (path.join dir f)],
        [⟨f, r⟩], none⟩) ∧
    (∀ (sched : Scheduler) (dir : JSString) (pre post : List Entry) (r : Option Err),
      (∀ e ∈ pre, e.statOk = true) →
      (path.join dir f, path.join dir f) ∈
        renames (main sched dir (.ok (pre ++ ⟨f, .returns true, r⟩ :: post)))) := by
  have hn := newName_of_clean f h₁ h₂
  refine ⟨hn, fun dir r => ?_, fun sched dir pre post r hpre => ?_⟩
  · rw [forEachCallback_file dir ⟨f, .returns true, r⟩ rfl, hn]
  · have hm := rename_mem_main sched dir pre post ⟨f, .returns true, r⟩ hpre rfl
    rwa [hn] at hm

/-- Witness of C8: "plain.txt". -/
theorem C8_unchanged_name_witness :
    '_' ∉ "plain.txt".toList ∧ ¬ "lox".toList <:+: "plain.txt".toList ∧
    newName "plain.txt".toList = "plain.txt".toList ∧
    ("/r/plain.txt".toList, "/r/plain.txt".toList) ∈
      renames (main fifo "/r".toList (.ok [⟨"plain.txt".toList, .returns true, none⟩])) :=
  ⟨by decide, by decide,
    (C8_unchanged_name_is_still_renamed "plain.txt".toList (by decide) (by decide)).1,
    (C8_unchanged_name_is_still_renamed "plain.txt".toList (by decide) (by decide)).2.2
      fifo "/r".toList [] [] none (by decide)⟩

/-- Claim C10: the name computation is not injective, "a_lox" and "a-lax" both
give "a-lax"; on the listing of these two regular files the program issues the
two renames to the same target path, whatever the outcome of either; and on
every listing on which every stat returns, two regular files with the same new
name are each renamed to the one target path. -/
theorem C10_no_conflict_resolution :
    ("a_lox".toList ≠ "a-lax".toList ∧ newName "a_lox".toList = "a-lax".toList ∧
      newName "a-lax".toList = "a-lax".toList) ∧
    (∀ (sched : Scheduler) (dir : JSString) (r₁ r₂ : Option Err),
      renames (main sched dir
        (.ok [⟨"a_lox".toList, .returns true, r₁⟩, ⟨"a-lax".toList, .returns true, r₂⟩])) =
        [(path.join dir "a_lox".toList, path.join dir "a-lax".toList),
          (path.join dir "a-lax".toList, path.join dir "a-lax".toList)]) ∧
    (∀ (sched : Scheduler) (dir : JSString) (files : List Entry) (e₁ e₂ : Entry),
      (∀ e ∈ files, e.statOk = true) → e₁ ∈ files → e₂ ∈ files →
      e₁.stat = .returns true → e₂.stat = .returns true →
      newName e₁.name = newName e₂.name →
      (path.join dir e₁.name, path.join dir (newName e₁.name)) ∈
          renames (main sched dir (.ok files)) ∧
        (path.join dir e₂.name, path.join dir (newName e₁.name)) ∈
          renames (main sched dir (.ok files))) := by
  refine ⟨⟨by decide, by decide, by decide⟩, fun sched dir r₁ r₂ => ?_,
    fun sched dir files e₁ e₂ h m₁ m₂ f₁ f₂ hn => ?_⟩
  · have h₁ : newName ['a', '_', 'l', 'o', 'x'] = ['a', '-', 'l', 'a', 'x'] := by decide
    have h₂ : newName ['a', '-', 'l', 'a', 'x'] = ['a', '-', 'l', 'a', 'x'] := by decide
    rw [renames_main, (forEach_of_statOk dir _ (by simp [Entry.statOk])).2.2.1]
    simp [Entry.isFile, h₁, h₂]
  · rw [renames_main, (forEach_of_statOk dir files h).2.2.1]
    refine ⟨List.mem_map.2 ⟨e₁, List.mem_filter.2 ⟨m₁, by simp [Entry.isFile, f₁]⟩, rfl⟩,
      List.mem_map.2 ⟨e₂, List.mem_filter.2 ⟨m₂, by simp [Entry.isFile, f₂]⟩, ?_⟩⟩
    rw [hn]

/-- Witness of C10: the listing of "a_lox" and "a-lax", with a directory
between them. -/
theorem C10_no_conflict_resolution_witness :
    (∀ e ∈ [(⟨"a_lox".toList, .returns true, none⟩ : Entry), ⟨"d".toList, .returns false, none⟩,
        ⟨"a-lax".toList, .returns true, none⟩], e.statOk = true) ∧
    ("/r/a_lox".toList, "/r/a-lax".toList) ∈
      renames (main fifo "/r".toList (.ok [⟨"a_lox".toList, .returns true, none⟩,
        ⟨"d".toList, .returns false, none⟩, ⟨"a-lax".toList, .returns true, none⟩])) ∧
    ("/r/a-lax".toList, "/r/a-lax".toList) ∈
      renames (main fifo "/r".toList (.ok [⟨"a_lox".toList, .returns true, none⟩,
        ⟨"d".toList, .returns false, none⟩, ⟨"a-lax".toList, .returns true, none⟩])) :=
  ⟨by decide,
    C10_no_conflict_resolution.2.2 fifo "/r".toList
      [⟨"a_lox".toList, .returns true, none⟩, ⟨"d".toList, .returns false, none⟩,
        ⟨"a-lax".toList, .returns true, none⟩]
      ⟨"a_lox".toList, .returns true, none⟩ ⟨"a-lax".toList, .returns true, none⟩
      (by decide) (by decide) (by decide) rfl rfl (by decide)⟩

end Rename
